import Mathlib

/-!
# Strict encoding: a verification model

A shallow embedding of the strict-encoding derivation engine: the canonical
binary codec for composite data types (structures and tagged unions) driven by
per-type and per-field directives (tag strategy, explicit tag values, skipped
fields, TLV extension region), together with the proc-macro entry points of
`src/rust/derive/src/lib.rs`.

The codec engine itself lives outside the `src/` tree (in the helper crates the
derive macros call into), so its definitions below are modelled from the
specification; the derive entry points are modelled from the source file.
-/

set_option maxHeartbeats 1600000
set_option linter.unusedVariables false
set_option linter.unnecessarySeqFocus false

namespace StrictEncoding

/-- Modelled from the spec: the tag strategy of a tagged union (section 4.2) —
variants are tagged either by their zero-based declaration ordinal
(`by_order`) or by their intrinsic representation value (`by_value`). -/
inductive TagStrategy
  | byOrder
  | byValue
deriving DecidableEq

/-- Modelled from the spec: the width in bytes of the serialized variant tag
(`repr = u8 | u16 | u32 | u64`). -/
inductive ReprWidth
  | w1
  | w2
  | w4
  | w8
deriving DecidableEq

/-- Number of bytes of a tag representation width. -/
def ReprWidth.bytes : ReprWidth → Nat
  | .w1 => 1
  | .w2 => 2
  | .w4 => 4
  | .w8 => 8

/-- Modelled from the spec: the role of a structure field (section 3):
normal, skipped (`skip`), TLV-tagged (`tlv = id`) or the unknown-TLV capture
bucket (`unknown_tlvs`). -/
inductive FieldRole
  | normal
  | skipped
  | tlvTagged (tagId : Nat)
  | tlvCapture
deriving DecidableEq

/-- Modelled from the spec: schema-compilation errors (section 7). -/
inductive SchemaError
  | tagConflict (variantA : String) (variantB : String) (tag : Nat)
  | tlvNotEnabled
  | multipleTlvCaptureFields
  | invalidTagStrategyCombination
deriving DecidableEq

/-- Modelled from the spec: decode-time errors (section 7). -/
inductive DecodeError
  | truncatedInput
  | lengthMismatch
  | unknownTag (tag : Nat)
  | unknownMandatoryTlv (tagId : Nat)
  | trailingBytes
deriving DecidableEq

mutual
/-- Modelled from the spec: type descriptors (section 3). Fixed-width unsigned
integers, length-prefixed byte sequences, optional values, structures (with a
`use_tlv` flag and ordered role-annotated fields) and tagged unions (with a
tag strategy, a tag representation width and ordered variants). -/
inductive Ty
  | u8
  | u16
  | u32
  | u64
  | bytes
  | option (t : Ty)
  | strukt (useTlv : Bool) (fields : Fields)
  | union (strategy : TagStrategy) (rep : ReprWidth) (variants : Variants)

/-- Modelled from the spec: an ordered sequence of field descriptors, each a
role together with the field's type. -/
inductive Fields
  | nil
  | cons (role : FieldRole) (t : Ty) (rest : Fields)

/-- Modelled from the spec: an ordered sequence of variant descriptors —
name, intrinsic value, optional explicit `value = n` override, and the
variant's associated fields. -/
inductive Variants
  | nil
  | cons (name : String) (intrinsic : Nat) (explicitVal : Option Nat)
      (payload : Fields) (rest : Variants)
end

mutual
/-- Modelled from the spec: runtime values of the data model. Integers carry
a natural number, byte sequences a list of bytes, optionals are absent or
present, structures carry their field values in order, union values carry
the variant ordinal and the payload values, and the TLV capture bucket is a
mapping from tag id to raw payload bytes. -/
inductive Value
  | vInt (n : Nat)
  | vBytes (bs : List Nat)
  | vNone
  | vSome (v : Value)
  | vStruct (fields : Values)
  | vVariant (idx : Nat) (payload : Values)
  | vMap (entries : List (Nat × List Nat))

/-- Modelled from the spec: an ordered sequence of field values. -/
inductive Values
  | nil
  | cons (v : Value) (rest : Values)
end

/-- Little-endian encoding of `n` into `w` bytes (section 4.1). -/
def encLE : Nat → Nat → List Nat
  | 0, _ => []
  | w + 1, n => n % 256 :: encLE w (n / 256)

/-- Little-endian decoding of a byte list into a natural number. -/
def decLE : List Nat → Nat
  | [] => 0
  | b :: rest => b + 256 * decLE rest

/-- Modelled from the spec: the resolved tag of a variant (section 4.2) — the
explicit `value =` override if present, otherwise the ordinal under
`by_order` or the intrinsic value under `by_value`. -/
def resolvedTag (strategy : TagStrategy) (ordinal intrinsic : Nat)
    (explicitVal : Option Nat) : Nat :=
  match explicitVal with
  | some v => v
  | none =>
    match strategy with
    | .byOrder => ordinal
    | .byValue => intrinsic

/-- Look up the `idx`-th variant descriptor. -/
def nthVariant : Variants → Nat → Option (String × Nat × Option Nat × Fields)
  | .nil, _ => none
  | .cons name intr ex payload _, 0 => some (name, intr, ex, payload)
  | .cons _ _ _ _ rest, n + 1 => nthVariant rest n

/-- Modelled from the spec: the ordered list of resolved tags of a union's
variants, design ordinals starting at `k`. -/
def resolveTags (s : TagStrategy) : Nat → Variants → List Nat
  | _, .nil => []
  | k, .cons _ intr ex _ rest => resolvedTag s k intr ex :: resolveTags s (k + 1) rest

/-- First variant (ordinal counted from `k`) whose resolved tag is `tag`. -/
def findVariant (s : TagStrategy) : Nat → Nat → Variants → Option (Nat × Fields)
  | _, _, .nil => none
  | k, tag, .cons _ intr ex payload rest =>
    if resolvedTag s k intr ex = tag then some (k, payload)
    else findVariant s (k + 1) tag rest

/-- Name of the first variant (ordinals from `k`) whose resolved tag is `tag`. -/
def findNameByTag (s : TagStrategy) : Nat → Nat → Variants → Option String
  | _, _, .nil => none
  | k, tag, .cons name intr ex _ rest =>
    if resolvedTag s k intr ex = tag then some name
    else findNameByTag s (k + 1) tag rest

/-- Modelled from the spec: tag-resolver compilation (section 4.2, step 3) —
scan the variants in order; if some later variant resolves to the same tag as
an earlier one, fail with `TagConflict` naming the two variants and the tag. -/
def compileUnionFrom (s : TagStrategy) : Nat → Variants → Except SchemaError Unit
  | _, .nil => .ok ()
  | k, .cons name intr ex _ rest =>
    let tag := resolvedTag s k intr ex
    match findNameByTag s (k + 1) tag rest with
    | some other => .error (.tagConflict name other tag)
    | none => compileUnionFrom s (k + 1) rest

/-- Modelled from the spec: schema compilation of a tagged union — build-time
tag conflict detection. -/
def compileUnion (s : TagStrategy) (vars : Variants) : Except SchemaError Unit :=
  compileUnionFrom s 0 vars

mutual
/-- Modelled from the spec: the default value of a type, used to restore
skipped fields on decode (sections 4.3 and 9). -/
def defaultVal : Ty → Value
  | .u8 | .u16 | .u32 | .u64 => .vInt 0
  | .bytes => .vBytes []
  | .option _ => .vNone
  | .strukt _ fs => .vStruct (defaultFields fs)
  | .union _ _ vars => defaultVariant vars

/-- Default values of a field sequence. -/
def defaultFields : Fields → Values
  | .nil => .nil
  | .cons .normal t rest => .cons (defaultVal t) (defaultFields rest)
  | .cons .skipped t rest => .cons (defaultVal t) (defaultFields rest)
  | .cons (.tlvTagged _) _ rest => .cons .vNone (defaultFields rest)
  | .cons .tlvCapture _ rest => .cons (.vMap []) (defaultFields rest)

/-- Default value of a union: its first declared variant with default payload. -/
def defaultVariant : Variants → Value
  | .nil => .vVariant 0 .nil
  | .cons _ _ _ payload _ => .vVariant 0 (defaultFields payload)
end

mutual
/-- Replace every component sitting at a `Skipped` position (at any depth) by
its declared default; all other components are kept. -/
def setSkippedDefault : Ty → Value → Value
  | .option t, .vSome v => .vSome (setSkippedDefault t v)
  | .strukt _ fs, .vStruct vs => .vStruct (setSkippedFields fs vs)
  | .union _ _ vars, .vVariant idx vs =>
    match nthVariant vars idx with
    | some (_, _, _, fields) => .vVariant idx (setSkippedFields fields vs)
    | none => .vVariant idx vs
  | _, v => v

/-- Pointwise `setSkippedDefault` over a field sequence: skipped slots become
their declared default, the rest recurse. -/
def setSkippedFields : Fields → Values → Values
  | .cons .skipped t fs, .cons _ vs => .cons (defaultVal t) (setSkippedFields fs vs)
  | .cons .normal t fs, .cons v vs =>
    .cons (setSkippedDefault t v) (setSkippedFields fs vs)
  | .cons (.tlvTagged _) t fs, .cons v vs =>
    .cons (setSkippedDefault (.option t) v) (setSkippedFields fs vs)
  | .cons .tlvCapture _ fs, .cons v vs => .cons v (setSkippedFields fs vs)
  | _, vs => vs
end

mutual
/-- Agreement of two values everywhere except (possibly) at `Skipped`
positions: base values must be equal, composite values agree component-wise,
and any two values agree at a skipped slot. -/
def agreeExceptSkipped : Ty → Value → Value → Bool
  | .u8, .vInt a, .vInt b => decide (a = b)
  | .u16, .vInt a, .vInt b => decide (a = b)
  | .u32, .vInt a, .vInt b => decide (a = b)
  | .u64, .vInt a, .vInt b => decide (a = b)
  | .bytes, .vBytes a, .vBytes b => decide (a = b)
  | .option _, .vNone, .vNone => true
  | .option t, .vSome a, .vSome b => agreeExceptSkipped t a b
  | .strukt _ fs, .vStruct as1, .vStruct bs1 => agreeFieldsExceptSkipped fs as1 bs1
  | .union _ _ vars, .vVariant i as1, .vVariant j bs1 =>
    decide (i = j) &&
      (match nthVariant vars i with
       | some (_, _, _, fields) => agreeFieldsExceptSkipped fields as1 bs1
       | none => false)
  | _, _, _ => false

/-- Field-sequence version of `agreeExceptSkipped`: skipped slots always
agree; the others agree under their declared types. -/
def agreeFieldsExceptSkipped : Fields → Values → Values → Bool
  | .nil, .nil, .nil => true
  | .cons .skipped _ fs, .cons _ as1, .cons _ bs1 => agreeFieldsExceptSkipped fs as1 bs1
  | .cons .normal t fs, .cons a as1, .cons b bs1 =>
    agreeExceptSkipped t a b && agreeFieldsExceptSkipped fs as1 bs1
  | .cons (.tlvTagged _) t fs, .cons a as1, .cons b bs1 =>
    agreeExceptSkipped (.option t) a b && agreeFieldsExceptSkipped fs as1 bs1
  | .cons .tlvCapture _ fs, .cons (.vMap m1) as1, .cons (.vMap m2) bs1 =>
    decide (m1 = m2) && agreeFieldsExceptSkipped fs as1 bs1
  | _, _, _ => false
end

mutual
/-- Modelled from the spec: whole-value encode (sections 4.1 and 4.5) —
little-endian fixed-width integers, 16-bit-length-prefixed byte sequences,
a one-byte presence tag for optionals, concatenated field bodies for
structures (plus the TLV region when `use_tlv` is set), and a
`ReprWidth`-byte resolved tag followed by the payload for union values. -/
def encodeVal : Ty → Value → List Nat
  | .u8, .vInt n => encLE 1 n
  | .u16, .vInt n => encLE 2 n
  | .u32, .vInt n => encLE 4 n
  | .u64, .vInt n => encLE 8 n
  | .bytes, .vBytes bs => encLE 2 bs.length ++ bs
  | .option _, .vNone => [0]
  | .option t, .vSome v => 1 :: encodeVal t v
  | .strukt useTlv fs, .vStruct vs =>
    encodeFieldsBody fs vs ++
      (if useTlv then encodeTlvTagged fs vs ++ encodeCaptureEntries fs vs else [])
  | .union s rep vars, .vVariant idx vs =>
    match nthVariant vars idx with
    | some (_, intr, ex, fields) =>
      encLE rep.bytes (resolvedTag s idx intr ex) ++ encodeFieldsBody fields vs
    | none => []
  | _, _ => []

/-- Modelled from the spec: the main body of a structure or variant payload —
normal fields in declaration order; skipped, TLV-tagged and capture fields
emit nothing into the body (sections 4.3 and 4.4). -/
def encodeFieldsBody : Fields → Values → List Nat
  | .cons .normal t fs, .cons v vs => encodeVal t v ++ encodeFieldsBody fs vs
  | .cons _ _ fs, .cons _ vs => encodeFieldsBody fs vs
  | _, _ => []

/-- Modelled from the spec: the TLV entries of the present TLV-tagged fields,
in declaration order — each entry is tag id (2 bytes LE), payload length
(2 bytes LE), payload (section 4.4, step 2). -/
def encodeTlvTagged : Fields → Values → List Nat
  | .cons (.tlvTagged id) t fs, .cons (.vSome v) vs =>
    encLE 2 id ++ encLE 2 (encodeVal t v).length ++ encodeVal t v ++
      encodeTlvTagged fs vs
  | .cons _ _ fs, .cons _ vs => encodeTlvTagged fs vs
  | _, _ => []

/-- Modelled from the spec: the TLV entries of the capture bucket, appended
after the tagged entries, in the mapping's stored (ascending tag id) order
(section 4.4, step 2). -/
def encodeCaptureEntries : Fields → Values → List Nat
  | .cons .tlvCapture _ _, .cons (.vMap entries) _ =>
    entries.foldr (fun e acc => encLE 2 e.1 ++ encLE 2 e.2.length ++ e.2 ++ acc) []
  | .cons _ _ fs, .cons _ vs => encodeCaptureEntries fs vs
  | _, _ => []
end

/-- Read a `w`-byte little-endian unsigned integer from the input; fails with
`TruncatedInput` if fewer than `w` bytes remain (section 4.1). -/
def decodeInt (w : Nat) (bs : List Nat) : Except DecodeError (Value × List Nat) :=
  if w ≤ bs.length then .ok (.vInt (decLE (bs.take w)), bs.drop w)
  else .error .truncatedInput

/-- Modelled from the spec: parse the trailing TLV region into raw
`(tag, payload)` entries, iterating until the input is exhausted; each entry
is a 2-byte tag id, a 2-byte length and `length` payload bytes
(section 4.4). -/
def parseTlvEntries (bs : List Nat) : Except DecodeError (List (Nat × List Nat)) :=
  match bs with
  | [] => .ok []
  | b :: rest =>
    if h4 : 4 ≤ (b :: rest).length then
      let tag := decLE ((b :: rest).take 2)
      let len := decLE (((b :: rest).drop 2).take 2)
      let body := (b :: rest).drop 4
      if hl : len ≤ body.length then
        match parseTlvEntries (body.drop len) with
        | .ok entries => .ok ((tag, body.take len) :: entries)
        | .error e => .error e
      else .error .lengthMismatch
    else .error .truncatedInput
termination_by bs.length
decreasing_by
  simp only [List.length_drop, List.length_cons]
  simp only [List.length_cons] at h4
  omega

/-- Insert `(tag, payload)` into a capture mapping, keeping ascending tag id
order and replacing an existing entry with the same tag. -/
def insertEntry (tag : Nat) (payload : List Nat) :
    List (Nat × List Nat) → List (Nat × List Nat)
  | [] => [(tag, payload)]
  | (t, p) :: rest =>
    if tag < t then (tag, payload) :: (t, p) :: rest
    else if tag = t then (tag, payload) :: rest
    else (t, p) :: insertEntry tag payload rest

/-- Modelled from the spec: insert an unknown odd-id TLV entry verbatim into
the structure's capture field, if one exists (section 4.4, step 3). -/
def updateCapture : Fields → Values → Nat → List Nat → Values
  | .cons .tlvCapture _ fs, .cons (.vMap m) vs, tag, payload =>
    .cons (.vMap (insertEntry tag payload m)) vs
  | .cons .tlvCapture _ fs, .cons (.vInt n) vs, tag, payload =>
    .cons (.vInt n) (updateCapture fs vs tag payload)
  | .cons .tlvCapture _ fs, .cons (.vBytes bs) vs, tag, payload =>
    .cons (.vBytes bs) (updateCapture fs vs tag payload)
  | .cons .tlvCapture _ fs, .cons .vNone vs, tag, payload =>
    .cons .vNone (updateCapture fs vs tag payload)
  | .cons .tlvCapture _ fs, .cons (.vSome w) vs, tag, payload =>
    .cons (.vSome w) (updateCapture fs vs tag payload)
  | .cons .tlvCapture _ fs, .cons (.vStruct ws) vs, tag, payload =>
    .cons (.vStruct ws) (updateCapture fs vs tag payload)
  | .cons .tlvCapture _ fs, .cons (.vVariant j ws) vs, tag, payload =>
    .cons (.vVariant j ws) (updateCapture fs vs tag payload)
  | .cons .normal _ fs, .cons v vs, tag, payload => .cons v (updateCapture fs vs tag payload)
  | .cons .skipped _ fs, .cons v vs, tag, payload => .cons v (updateCapture fs vs tag payload)
  | .cons (.tlvTagged _) _ fs, .cons v vs, tag, payload =>
    .cons v (updateCapture fs vs tag payload)
  | .nil, vs, _, _ => vs
  | .cons _ _ _, .nil, _, _ => .nil

/-- The raw payload stored in the capture field under `tag`, if any. -/
def lookupCapture : Fields → Values → Nat → Option (List Nat)
  | .cons .tlvCapture _ fs, .cons (.vMap m) vs, tag => m.lookup tag
  | .cons .tlvCapture _ fs, .cons (.vInt _) vs, tag => lookupCapture fs vs tag
  | .cons .tlvCapture _ fs, .cons (.vBytes _) vs, tag => lookupCapture fs vs tag
  | .cons .tlvCapture _ fs, .cons .vNone vs, tag => lookupCapture fs vs tag
  | .cons .tlvCapture _ fs, .cons (.vSome _) vs, tag => lookupCapture fs vs tag
  | .cons .tlvCapture _ fs, .cons (.vStruct _) vs, tag => lookupCapture fs vs tag
  | .cons .tlvCapture _ fs, .cons (.vVariant _ _) vs, tag => lookupCapture fs vs tag
  | .cons .normal _ fs, .cons _ vs, tag => lookupCapture fs vs tag
  | .cons .skipped _ fs, .cons _ vs, tag => lookupCapture fs vs tag
  | .cons (.tlvTagged _) _ fs, .cons _ vs, tag => lookupCapture fs vs tag
  | .nil, _, _ => none
  | .cons _ _ _, .nil, _ => none

/-- Does the field sequence declare a TLV-tagged field with this tag id? -/
def hasTlvField : Fields → Nat → Bool
  | .cons (.tlvTagged id) _ fs, tag => id = tag || hasTlvField fs tag
  | .cons .normal _ fs, tag => hasTlvField fs tag
  | .cons .skipped _ fs, tag => hasTlvField fs tag
  | .cons .tlvCapture _ fs, tag => hasTlvField fs tag
  | .nil, _ => false

/-- Does the field sequence declare a capture field? -/
def hasCapture : Fields → Bool
  | .cons .tlvCapture _ _ => true
  | .cons .normal _ fs => hasCapture fs
  | .cons .skipped _ fs => hasCapture fs
  | .cons (.tlvTagged _) _ fs => hasCapture fs
  | .nil => false

/-- Role of the `i`-th field. -/
def fieldRoleAt : Fields → Nat → Option FieldRole
  | .cons role _ _, 0 => some role
  | .cons _ _ fs, i + 1 => fieldRoleAt fs i
  | .nil, _ => none

/-- Type of the `i`-th field. -/
def fieldTyAt : Fields → Nat → Option Ty
  | .cons _ t _, 0 => some t
  | .cons _ _ fs, i + 1 => fieldTyAt fs i
  | .nil, _ => none

/-- The `i`-th value of a field value sequence. -/
def getVal : Values → Nat → Option Value
  | .cons v _, 0 => some v
  | .cons _ vs, i + 1 => getVal vs i
  | .nil, _ => none

mutual
/-- Modelled from the spec: whole-value decode (sections 4.1–4.5) — the exact
inverse of `encodeVal`, failing with `TruncatedInput` when fixed-width reads
run out of input, `LengthMismatch` when a declared length overruns the input,
and `UnknownTag` for an unresolvable variant tag. A structure with the TLV
extension consumes the whole remaining input as its TLV region. -/
def decodeVal : Ty → List Nat → Except DecodeError (Value × List Nat)
  | .u8, bs => decodeInt 1 bs
  | .u16, bs => decodeInt 2 bs
  | .u32, bs => decodeInt 4 bs
  | .u64, bs => decodeInt 8 bs
  | .bytes, bs =>
    if 2 ≤ bs.length then
      let len := decLE (bs.take 2)
      let rest := bs.drop 2
      if len ≤ rest.length then .ok (.vBytes (rest.take len), rest.drop len)
      else .error .lengthMismatch
    else .error .truncatedInput
  | .option t, bs =>
    match bs with
    | [] => .error .truncatedInput
    | 0 :: rest => .ok (.vNone, rest)
    | 1 :: rest =>
      match decodeVal t rest with
      | .ok (v, rest2) => .ok (.vSome v, rest2)
      | .error e => .error e
    | b :: _ => .error (.unknownTag b)
  | .strukt useTlv fs, bs =>
    match decodeFields fs bs with
    | .error e => .error e
    | .ok (vs, rest) =>
      if useTlv then
        match parseTlvEntries rest with
        | .error e => .error e
        | .ok entries =>
          match applyTlvEntries fs vs entries with
          | .error e => .error e
          | .ok vs2 => .ok (.vStruct vs2, [])
      else .ok (.vStruct vs, rest)
  | .union s rep vars, bs =>
    if rep.bytes ≤ bs.length then
      decodeVariant s vars 0 (decLE (bs.take rep.bytes)) (bs.drop rep.bytes)
    else .error .truncatedInput
termination_by t bs => (sizeOf t, bs.length)

/-- Modelled from the spec: decode the main body of a field sequence —
normal fields consume input in order; skipped fields take their declared
default without consuming input; TLV-tagged fields start out absent and the
capture field starts out empty (sections 4.3 and 4.4, step 4). -/
def decodeFields : Fields → List Nat → Except DecodeError (Values × List Nat)
  | .nil, bs => .ok (.nil, bs)
  | .cons .normal t fs, bs =>
    match decodeVal t bs with
    | .error e => .error e
    | .ok (v, rest) =>
      match decodeFields fs rest with
      | .error e => .error e
      | .ok (vs, rest2) => .ok (.cons v vs, rest2)
  | .cons .skipped t fs, bs =>
    match decodeFields fs bs with
    | .error e => .error e
    | .ok (vs, rest) => .ok (.cons (defaultVal t) vs, rest)
  | .cons (.tlvTagged _) _ fs, bs =>
    match decodeFields fs bs with
    | .error e => .error e
    | .ok (vs, rest) => .ok (.cons .vNone vs, rest)
  | .cons .tlvCapture _ fs, bs =>
    match decodeFields fs bs with
    | .error e => .error e
    | .ok (vs, rest) => .ok (.cons (.vMap []) vs, rest)
termination_by fs bs => (sizeOf fs, bs.length)

/-- Modelled from the spec: look up the first variant (ordinals from `k`)
whose resolved tag is `tag` and decode its payload; an unresolvable tag fails
with `UnknownTag` (section 4.2, step 4). -/
def decodeVariant (s : TagStrategy) :
    Variants → Nat → Nat → List Nat → Except DecodeError (Value × List Nat)
  | .nil, _, tag, _ => .error (.unknownTag tag)
  | .cons _ intr ex payload rest, k, tag, bs =>
    if resolvedTag s k intr ex = tag then
      match decodeFields payload bs with
      | .ok (vs, rest2) => .ok (.vVariant k vs, rest2)
      | .error e => .error e
    else decodeVariant s rest (k + 1) tag bs
termination_by vars k tag bs => (sizeOf vars, bs.length)

/-- Modelled from the spec: route one TLV entry into the matching TLV-tagged
field, decoding its payload completely (section 4.4, step 3); returns `none`
when no declared field matches the tag id. -/
def decodeIntoField : Fields → Values → Nat → List Nat →
    Except DecodeError (Option Values)
  | .cons (.tlvTagged id) t fs, .cons v vs, tag, payload =>
    if id = tag then
      match decodeVal t payload with
      | .ok (w, []) => .ok (some (.cons (.vSome w) vs))
      | .ok (_, _ :: _) => .error .lengthMismatch
      | .error e => .error e
    else
      match decodeIntoField fs vs tag payload with
      | .ok (some vs2) => .ok (some (.cons v vs2))
      | .ok none => .ok none
      | .error e => .error e
  | .cons .normal _ fs, .cons v vs, tag, payload =>
    match decodeIntoField fs vs tag payload with
    | .ok (some vs2) => .ok (some (.cons v vs2))
    | .ok none => .ok none
    | .error e => .error e
  | .cons .skipped _ fs, .cons v vs, tag, payload =>
    match decodeIntoField fs vs tag payload with
    | .ok (some vs2) => .ok (some (.cons v vs2))
    | .ok none => .ok none
    | .error e => .error e
  | .cons .tlvCapture _ fs, .cons v vs, tag, payload =>
    match decodeIntoField fs vs tag payload with
    | .ok (some vs2) => .ok (some (.cons v vs2))
    | .ok none => .ok none
    | .error e => .error e
  | .nil, _, _, _ => .ok none
  | .cons _ _ _, .nil, _, _ => .ok none
termination_by fs vs tag payload => (sizeOf fs, 0)

/-- Modelled from the spec: process the parsed TLV entries in order — a known
tag id decodes into its field; an unknown even tag id is a hard error
`UnknownMandatoryTlv`; an unknown odd tag id is captured verbatim
(section 4.4, step 3). -/
def applyTlvEntries : Fields → Values → List (Nat × List Nat) →
    Except DecodeError Values
  | _, vs, [] => .ok vs
  | fs, vs, (tag, payload) :: entries =>
    match decodeIntoField fs vs tag payload with
    | .error e => .error e
    | .ok (some vs2) => applyTlvEntries fs vs2 entries
    | .ok none =>
      if tag % 2 = 0 then .error (.unknownMandatoryTlv tag)
      else applyTlvEntries fs (updateCapture fs vs tag payload) entries
termination_by fs vs entries => (sizeOf fs, entries.length + 1)
end

/-- Modelled from the spec: the top-level encode entry point
(`strict_serialize`): encode never fails for well-formed values
(section 6). -/
def strictSerialize (t : Ty) (v : Value) : List Nat :=
  encodeVal t v

/-- Modelled from the spec: the top-level decode entry point
(`strict_deserialize`): decode the value and then reject any unconsumed
input with `TrailingBytes` (section 4.5). -/
def strictDeserialize (t : Ty) (bs : List Nat) : Except DecodeError Value :=
  match decodeVal t bs with
  | .error e => .error e
  | .ok (v, []) => .ok v
  | .ok (_, _ :: _) => .error .trailingBytes

mutual
/-- Well-formedness of an in-memory value against its type: integers fit the
declared width, byte sequences fit the 16-bit length field with each byte in
range, and composite values match the declared shape slot by slot. -/
def wtVal : Ty → Value → Bool
  | .u8, .vInt n => decide (n < 256)
  | .u16, .vInt n => decide (n < 256 ^ 2)
  | .u32, .vInt n => decide (n < 256 ^ 4)
  | .u64, .vInt n => decide (n < 256 ^ 8)
  | .bytes, .vBytes bs => decide (bs.length < 256 ^ 2) && bs.all (fun b => decide (b < 256))
  | .option _, .vNone => true
  | .option t, .vSome v => wtVal t v
  | .strukt _ fs, .vStruct vs => wtFields fs vs
  | .union _ _ vars, .vVariant idx vs =>
    match nthVariant vars idx with
    | some (_, _, _, fields) => wtFields fields vs
    | none => false
  | _, _ => false

/-- Well-formedness of a field value sequence against its field descriptors:
a TLV-tagged slot holds an optional of the field type and the capture slot
holds a mapping. -/
def wtFields : Fields → Values → Bool
  | .nil, .nil => true
  | .cons .normal t fs, .cons v vs => wtVal t v && wtFields fs vs
  | .cons .skipped t fs, .cons v vs => wtVal t v && wtFields fs vs
  | .cons (.tlvTagged _) t fs, .cons v vs => wtVal (.option t) v && wtFields fs vs
  | .cons .tlvCapture _ fs, .cons v vs =>
    (match v with
     | .vMap _ => true
     | _ => false) && wtFields fs vs
  | _, _ => false
end

mutual
/-- Does the type contain no TLV-tagged and no capture fields (and no
structure opting into the TLV extension), at any depth? -/
def noTlv : Ty → Bool
  | .u8 | .u16 | .u32 | .u64 | .bytes => true
  | .option t => noTlv t
  | .strukt useTlv fs => !useTlv && noTlvFields fs
  | .union _ _ vars => noTlvVariants vars

/-- `noTlv` over a field sequence. -/
def noTlvFields : Fields → Bool
  | .nil => true
  | .cons .normal t fs => noTlv t && noTlvFields fs
  | .cons .skipped t fs => noTlv t && noTlvFields fs
  | .cons (.tlvTagged _) _ _ => false
  | .cons .tlvCapture _ _ => false

/-- `noTlv` over variant payloads. -/
def noTlvVariants : Variants → Bool
  | .nil => true
  | .cons _ _ _ payload rest => noTlvFields payload && noTlvVariants rest
end

mutual
/-- Does the type contain no `Skipped` fields, at any depth? -/
def noSkipped : Ty → Bool
  | .u8 | .u16 | .u32 | .u64 | .bytes => true
  | .option t => noSkipped t
  | .strukt _ fs => noSkippedFields fs
  | .union _ _ vars => noSkippedVariants vars

/-- `noSkipped` over a field sequence. -/
def noSkippedFields : Fields → Bool
  | .nil => true
  | .cons .skipped _ _ => false
  | .cons _ t fs => noSkipped t && noSkippedFields fs

/-- `noSkipped` over variant payloads. -/
def noSkippedVariants : Variants → Bool
  | .nil => true
  | .cons _ _ _ payload rest => noSkippedFields payload && noSkippedVariants rest
end

mutual
/-- Schema validity of a type: every tagged union occurring in it has
pairwise-distinct resolved tags, each fitting its representation width. -/
def tyOk : Ty → Bool
  | .u8 | .u16 | .u32 | .u64 | .bytes => true
  | .option t => tyOk t
  | .strukt _ fs => tyOkFields fs
  | .union s rep vars =>
    decide (resolveTags s 0 vars).Nodup &&
      (resolveTags s 0 vars).all (fun tg => decide (tg < 256 ^ rep.bytes)) &&
      tyOkVariants vars

/-- `tyOk` over a field sequence. -/
def tyOkFields : Fields → Bool
  | .nil => true
  | .cons _ t fs => tyOk t && tyOkFields fs

/-- `tyOk` over variant payloads. -/
def tyOkVariants : Variants → Bool
  | .nil => true
  | .cons _ _ _ payload rest => tyOkFields payload && tyOkVariants rest
end

/-! ## The proc-macro entry points (modelled from `src/rust/derive/src/lib.rs`)

The source file defines four `proc_macro_derive` entry points. Each parses
the input token stream into a `DeriveInput` (on a parse error the error is
turned into compile-error tokens) and then runs `encode_derive(input, false)`
(respectively `decode_derive(input, false)`), again turning an error into
compile-error tokens. The token-stream, derive-input and error types of the
host compiler are abstract here, as are the externally defined
`encode_derive`/`decode_derive` helpers, which the entry points receive as
arguments. -/

/-- Run a derivation: parse, then drive, mapping any error to compile-error
tokens (the `unwrap_or_else(|e| e.to_compile_error())` pattern of the
source). -/
def runDeriveWith {TS DI E : Type} (parse : TS → Except E DI)
    (driver : DI → Except E TS) (toCompileError : E → TS) (input : TS) : TS :=
  match parse input with
  | .error e => toCompileError e
  | .ok di =>
    match driver di with
    | .ok ts => ts
    | .error e => toCompileError e

/-- `derive_strict_dumb` from `src/rust/derive/src/lib.rs` (lines 214–219):
parse the input and call `encode_derive(derive_input, false)`. -/
def derive_strict_dumb {TS DI E : Type} (parse : TS → Except E DI)
    (encode_derive : DI → Bool → Except E TS) (toCompileError : E → TS)
    (input : TS) : TS :=
  runDeriveWith parse (fun di => encode_derive di false) toCompileError input

/-- `derive_strict_type` from `src/rust/derive/src/lib.rs` (lines 221–226):
parse the input and call `encode_derive(derive_input, false)`. -/
def derive_strict_type {TS DI E : Type} (parse : TS → Except E DI)
    (encode_derive : DI → Bool → Except E TS) (toCompileError : E → TS)
    (input : TS) : TS :=
  runDeriveWith parse (fun di => encode_derive di false) toCompileError input

/-- `derive_strict_encode` from `src/rust/derive/src/lib.rs` (lines 228–233):
parse the input and call `encode_derive(derive_input, false)`. -/
def derive_strict_encode {TS DI E : Type} (parse : TS → Except E DI)
    (encode_derive : DI → Bool → Except E TS) (toCompileError : E → TS)
    (input : TS) : TS :=
  runDeriveWith parse (fun di => encode_derive di false) toCompileError input

/-- `derive_strict_decode` from `src/rust/derive/src/lib.rs` (lines 235–240):
parse the input and call `decode_derive(derive_input, false)`. -/
def derive_strict_decode {TS DI E : Type} (parse : TS → Except E DI)
    (decode_derive : DI → Bool → Except E TS) (toCompileError : E → TS)
    (input : TS) : TS :=
  runDeriveWith parse (fun di => decode_derive di false) toCompileError input

/-! ## Concrete example schemas from the source's doctests -/

/-- The `Skipping` structure of the source doctest (lines 180–200): a normal
byte-sequence field `data` and a skipped `Option<bool>` field `ephemeral`. -/
def SkippingTy : Ty :=
  .strukt false (.cons .normal .bytes (.cons .skipped (.option .u8) .nil))

/-- The doctest value `Skipping { data: b"abc", ephemeral: Some(true) }`. -/
def skippingVal : Value :=
  .vStruct (.cons (.vBytes [0x61, 0x62, 0x63]) (.cons (.vSome (.vInt 1)) .nil))

/-- The variants of the `U16` enum of the source doctest (lines 160–174):
intrinsic values 1, 2, 4, 8, no explicit overrides. -/
def U16Variants : Variants :=
  .cons "Bit8" 1 none .nil
    (.cons "Bit16" 2 none .nil
      (.cons "Bit32" 4 none .nil
        (.cons "Bit64" 8 none .nil .nil)))

/-- The `U16` enum of the source doctest (lines 160–174): `by_order`,
`repr = u16`. -/
def U16Ty : Ty :=
  .union .byOrder .w2 U16Variants

/-- The variants of the `CustomValues` enum of the source doctest (lines
134–154): intrinsic values 1, 2, 4, 8 with explicit overrides `0x10`,
`0x1000`, `0x100000` on the last three. -/
def CustomValuesVariants : Variants :=
  .cons "Bit8" 1 none .nil
    (.cons "Bit16" 2 (some 0x10) .nil
      (.cons "Bit32" 4 (some 0x1000) .nil
        (.cons "Bit64" 8 (some 0x100000) .nil .nil)))

/-- The `CustomValues` enum of the source doctest (lines 134–154):
`by_value`, `repr = u32`. -/
def CustomValuesTy : Ty :=
  .union .byValue .w4 CustomValuesVariants

/-- The fields of the TLV-enabled demo structure: one normal `u8` field, one
TLV-tagged `u8` field with tag id `6`, and a capture field. -/
def TlvDemoFields : Fields :=
  .cons .normal .u8
    (.cons (.tlvTagged 6) .u8
      (.cons .tlvCapture .bytes .nil))

/-- A TLV-enabled demo structure over `TlvDemoFields`. -/
def TlvDemoTy : Ty :=
  .strukt true TlvDemoFields

/-- A demo value of `TlvDemoTy` with the TLV-tagged field absent and an empty
capture mapping. -/
def tlvDemoVal : Value :=
  .vStruct (.cons (.vInt 5) (.cons .vNone (.cons (.vMap []) .nil)))

/-- Two variants that resolve (under `by_order`) to the same tag `0`: the
second variant carries an explicit `value = 0` override. -/
def conflictVars : Variants :=
  .cons "A" 1 none .nil (.cons "B" 2 (some 0) .nil .nil)

/-! ## Basic lemmas about the primitive codec -/

theorem encLE_length (w n : Nat) : (encLE w n).length = w := by
  induction w generalizing n with
  | zero => rfl
  | succ w ih => simp [encLE, ih]

theorem decLE_encLE (w n : Nat) (h : n < 256 ^ w) : decLE (encLE w n) = n := by
  induction w generalizing n with
  | zero =>
    simp [pow_zero] at h
    simp [encLE, decLE, h]
  | succ w ih =>
    have hdiv : n / 256 < 256 ^ w := by
      rw [Nat.div_lt_iff_lt_mul (by norm_num)]
      calc n < 256 ^ (w + 1) := h
        _ = 256 ^ w * 256 := by ring
    simp [encLE, decLE, ih _ hdiv]
    omega

theorem take_encLE (w n : Nat) (rest : List Nat) :
    (encLE w n ++ rest).take w = encLE w n := by
  have := List.take_left (encLE w n) rest
  rwa [encLE_length] at this

theorem drop_encLE (w n : Nat) (rest : List Nat) :
    (encLE w n ++ rest).drop w = rest := by
  have := List.drop_left (encLE w n) rest
  rwa [encLE_length] at this

theorem decodeInt_enc (w n : Nat) (rest : List Nat) (h : n < 256 ^ w) :
    decodeInt w (encLE w n ++ rest) = .ok (.vInt n, rest) := by
  have hlen : w ≤ (encLE w n ++ rest).length := by
    rw [List.length_append, encLE_length]
    omega
  simp [decodeInt, hlen, encLE_length, take_encLE, drop_encLE, decLE_encLE w n h]

theorem decodeBytes_enc (data rest : List Nat) (h : data.length < 256 ^ 2) :
    decodeVal .bytes (encLE 2 data.length ++ data ++ rest) =
      .ok (.vBytes data, rest) := by
  rw [decodeVal]
  have hlen : 2 ≤ (encLE 2 data.length ++ data ++ rest).length := by
    rw [List.length_append, List.length_append, encLE_length]
    omega
  rw [List.append_assoc]
  rw [List.length_append, List.length_append, encLE_length] at hlen
  have hlen2 : 2 ≤ (encLE 2 data.length ++ (data ++ rest)).length := by
    rw [List.length_append, encLE_length]
    omega
  simp only [take_encLE, drop_encLE, decLE_encLE 2 data.length h, hlen2, if_true]
  have h2 : data.length ≤ (data ++ rest).length := by simp
  simp [h2, List.take_left, List.drop_left]

/-! ## Tag resolution lemmas -/

theorem resolveTags_get? (s : TagStrategy) :
    ∀ (vars : Variants) (k idx : Nat) (name : String) (intr : Nat)
      (ex : Option Nat) (fields : Fields),
      nthVariant vars idx = some (name, intr, ex, fields) →
      (resolveTags s k vars)[idx]? = some (resolvedTag s (k + idx) intr ex)
  | .nil, k, idx, name, intr, ex, fields => by
    intro h
    simp [nthVariant] at h
  | .cons nm iv exv pl rest, k, idx, name, intr, ex, fields => by
    intro h
    cases idx with
    | zero =>
      simp [nthVariant] at h
      obtain ⟨h1, h2, h3, h4⟩ := h
      subst h2 h3
      simp [resolveTags]
    | succ j =>
      simp [nthVariant] at h
      have hg := resolveTags_get? s rest (k + 1) j name intr ex fields h
      simp only [resolveTags, List.getElem?_cons_succ]
      rw [hg, show k + 1 + j = k + (j + 1) from by omega]

theorem nthVariant_noTlv :
    ∀ (vars : Variants) (idx : Nat) (name : String) (intr : Nat)
      (ex : Option Nat) (fields : Fields),
      noTlvVariants vars = true →
      nthVariant vars idx = some (name, intr, ex, fields) →
      noTlvFields fields = true
  | .nil, idx, name, intr, ex, fields => by
    intro _ h
    simp [nthVariant] at h
  | .cons nm iv exv pl rest, idx, name, intr, ex, fields => by
    intro hall h
    simp [noTlvVariants, Bool.and_eq_true] at hall
    cases idx with
    | zero =>
      simp [nthVariant] at h
      obtain ⟨_, _, _, h4⟩ := h
      subst h4
      exact hall.1
    | succ j =>
      simp [nthVariant] at h
      exact nthVariant_noTlv rest j name intr ex fields hall.2 h

theorem nthVariant_tyOk :
    ∀ (vars : Variants) (idx : Nat) (name : String) (intr : Nat)
      (ex : Option Nat) (fields : Fields),
      tyOkVariants vars = true →
      nthVariant vars idx = some (name, intr, ex, fields) →
      tyOkFields fields = true
  | .nil, idx, name, intr, ex, fields => by
    intro _ h
    simp [nthVariant] at h
  | .cons nm iv exv pl rest, idx, name, intr, ex, fields => by
    intro hall h
    simp [tyOkVariants, Bool.and_eq_true] at hall
    cases idx with
    | zero =>
      simp [nthVariant] at h
      obtain ⟨_, _, _, h4⟩ := h
      subst h4
      exact hall.1
    | succ j =>
      simp [nthVariant] at h
      exact nthVariant_tyOk rest j name intr ex fields hall.2 h

/-- Looking up the resolved tag of a declared variant finds exactly that
variant when the resolved tags are pairwise distinct. -/
theorem decodeVariant_eq (s : TagStrategy) :
    ∀ (vars : Variants) (k idx : Nat) (name : String) (intr : Nat)
      (ex : Option Nat) (fields : Fields) (bs : List Nat),
      nthVariant vars idx = some (name, intr, ex, fields) →
      (resolveTags s k vars).Nodup →
      decodeVariant s vars k (resolvedTag s (k + idx) intr ex) bs =
        match decodeFields fields bs with
        | .ok (vs, rest2) => .ok (.vVariant (k + idx) vs, rest2)
        | .error e => .error e
  | .nil, k, idx, name, intr, ex, fields, bs => by
    intro h _
    simp [nthVariant] at h
  | .cons nm iv exv pl rest, k, idx, name, intr, ex, fields, bs => by
    intro h hnd
    cases idx with
    | zero =>
      simp [nthVariant] at h
      obtain ⟨h1, h2, h3, h4⟩ := h
      subst h2 h3 h4
      rw [decodeVariant]
      simp
    | succ j =>
      simp [nthVariant] at h
      have hmem : resolvedTag s (k + (j + 1)) intr ex ∈ resolveTags s (k + 1) rest := by
        have hg := resolveTags_get? s rest (k + 1) j name intr ex fields h
        rw [show k + 1 + j = k + (j + 1) from by omega] at hg
        exact List.getElem?_mem hg
      simp [resolveTags, List.nodup_cons] at hnd
      have hne : resolvedTag s k iv exv ≠ resolvedTag s (k + (j + 1)) intr ex := by
        intro heq
        rw [heq] at hnd
        exact hnd.1 hmem
      rw [decodeVariant]
      simp only [hne, if_false]
      have hrec := decodeVariant_eq s rest (k + 1) j name intr ex fields bs h hnd.2
      rw [show k + (j + 1) = k + 1 + j from by omega]
      exact hrec

/-! ## The master round-trip theorem (TLV-free types) -/

mutual
/-- Decoding the encoding of a well-formed value of a TLV-free, schema-valid
type yields the value with its skipped positions defaulted, consuming exactly
the encoding. -/
theorem decode_encode_val : ∀ (v : Value) (t : Ty) (rest : List Nat),
    noTlv t = true → tyOk t = true → wtVal t v = true →
    decodeVal t (encodeVal t v ++ rest) = .ok (setSkippedDefault t v, rest)
  | .vInt n, t, rest => by
    intro hnt hok hwt
    cases t <;> simp [wtVal] at hwt
    case u8 =>
      simp only [encodeVal, setSkippedDefault]
      rw [decodeVal]
      exact decodeInt_enc 1 n rest (by simpa using hwt)
    case u16 =>
      simp only [encodeVal, setSkippedDefault]
      rw [decodeVal]
      exact decodeInt_enc 2 n rest (by simpa using hwt)
    case u32 =>
      simp only [encodeVal, setSkippedDefault]
      rw [decodeVal]
      exact decodeInt_enc 4 n rest (by simpa using hwt)
    case u64 =>
      simp only [encodeVal, setSkippedDefault]
      rw [decodeVal]
      exact decodeInt_enc 8 n rest (by simpa using hwt)
  | .vBytes data, t, rest => by
    intro hnt hok hwt
    cases t <;> simp [wtVal] at hwt
    case bytes =>
      simp only [encodeVal, setSkippedDefault]
      exact decodeBytes_enc data rest (by simpa using hwt.1)
  | .vNone, t, rest => by
    intro hnt hok hwt
    cases t <;> simp [wtVal] at hwt
    case option t1 =>
      simp only [encodeVal, setSkippedDefault, List.singleton_append]
      simp [decodeVal]
  | .vSome v, t, rest => by
    intro hnt hok hwt
    cases t <;> simp [wtVal] at hwt
    case option t1 =>
      simp only [noTlv] at hnt
      simp only [tyOk] at hok
      have ih := decode_encode_val v t1 rest hnt hok hwt
      simp only [encodeVal, List.cons_append]
      rw [decodeVal, ih]
      simp [setSkippedDefault]
  | .vStruct vs, t, rest => by
    intro hnt hok hwt
    cases t <;> simp [wtVal] at hwt
    case strukt useTlv fs =>
      simp only [noTlv, Bool.and_eq_true, Bool.not_eq_true'] at hnt
      obtain ⟨hu, hnf⟩ := hnt
      subst hu
      simp only [tyOk] at hok
      have ih := decode_encode_fields vs fs rest hnf hok hwt
      simp only [encodeVal, if_neg, Bool.false_eq_true, List.append_nil, ite_false]
      rw [decodeVal, ih]
      simp [setSkippedDefault]
  | .vVariant idx vs, t, rest => by
    intro hnt hok hwt
    cases t <;> simp [wtVal] at hwt
    case union s rep vars =>
      cases hnv : nthVariant vars idx with
      | none => rw [hnv] at hwt; simp at hwt
      | some info =>
        obtain ⟨name, intr, ex, fields⟩ := info
        rw [hnv] at hwt
        simp only [noTlv] at hnt
        simp only [tyOk, Bool.and_eq_true, decide_eq_true_eq] at hok
        obtain ⟨⟨hnodup, hall⟩, hvars⟩ := hok
        simp only [List.all_eq_true, decide_eq_true_eq] at hall
        have htagmem : resolvedTag s idx intr ex ∈ resolveTags s 0 vars := by
          have hg := resolveTags_get? s vars 0 idx name intr ex fields hnv
          simp only [Nat.zero_add] at hg
          exact List.getElem?_mem hg
        have htag : resolvedTag s idx intr ex < 256 ^ rep.bytes := hall _ htagmem
        have ihf := decode_encode_fields vs fields rest
          (nthVariant_noTlv vars idx name intr ex fields hnt hnv)
          (nthVariant_tyOk vars idx name intr ex fields hvars hnv) hwt
        have hdv := decodeVariant_eq s vars 0 idx name intr ex fields
          (encodeFieldsBody fields vs ++ rest) hnv hnodup
        simp only [Nat.zero_add] at hdv
        simp only [encodeVal, hnv, List.append_assoc]
        rw [decodeVal]
        have hlen : rep.bytes ≤
            (encLE rep.bytes (resolvedTag s idx intr ex) ++
              (encodeFieldsBody fields vs ++ rest)).length := by
          rw [List.length_append, encLE_length]
          omega
        rw [if_pos hlen, take_encLE, drop_encLE, decLE_encLE _ _ htag, hdv, ihf]
        simp [setSkippedDefault, hnv]
  | .vMap m, t, rest => by
    intro hnt hok hwt
    cases t <;> simp [wtVal] at hwt

/-- Field-sequence version of `decode_encode_val`. -/
theorem decode_encode_fields : ∀ (vs : Values) (fs : Fields) (rest : List Nat),
    noTlvFields fs = true → tyOkFields fs = true → wtFields fs vs = true →
    decodeFields fs (encodeFieldsBody fs vs ++ rest) =
      .ok (setSkippedFields fs vs, rest)
  | .nil, fs, rest => by
    intro hnt hok hwt
    cases fs with
    | nil => simp [encodeFieldsBody, decodeFields, setSkippedFields]
    | cons role t fs1 => simp [wtFields] at hwt
  | .cons v vs, fs, rest => by
    intro hnt hok hwt
    cases fs with
    | nil => simp [wtFields] at hwt
    | cons role t fs1 =>
      cases role with
      | normal =>
        simp only [wtFields, Bool.and_eq_true] at hwt
        simp only [noTlvFields, Bool.and_eq_true] at hnt
        simp only [tyOkFields, Bool.and_eq_true] at hok
        have ih1 := decode_encode_val v t (encodeFieldsBody fs1 vs ++ rest)
          hnt.1 hok.1 hwt.1
        have ih2 := decode_encode_fields vs fs1 rest hnt.2 hok.2 hwt.2
        simp only [encodeFieldsBody, List.append_assoc]
        rw [decodeFields, ih1]
        simp [ih2, setSkippedFields]
      | skipped =>
        simp only [wtFields, Bool.and_eq_true] at hwt
        simp only [noTlvFields, Bool.and_eq_true] at hnt
        simp only [tyOkFields, Bool.and_eq_true] at hok
        have ih := decode_encode_fields vs fs1 rest hnt.2 hok.2 hwt.2
        simp only [encodeFieldsBody]
        rw [decodeFields, ih]
        simp [setSkippedFields]
      | tlvTagged id => simp [noTlvFields] at hnt
      | tlvCapture => simp [noTlvFields] at hnt
end

/-! ## Encoding ignores the contents of skipped positions -/

mutual
/-- Defaulting the skipped positions of a value does not change its
encoding: skipped fields never reach the byte stream. -/
theorem skip_encode_val : ∀ (v : Value) (t : Ty),
    encodeVal t (setSkippedDefault t v) = encodeVal t v
  | .vInt n, t => by cases t <;> simp [setSkippedDefault]
  | .vBytes data, t => by cases t <;> simp [setSkippedDefault]
  | .vNone, t => by cases t <;> simp [setSkippedDefault]
  | .vSome v, t => by
    cases t <;> simp [setSkippedDefault]
    case option t1 => simp [encodeVal, skip_encode_val v t1]
  | .vStruct vs, t => by
    cases t <;> simp [setSkippedDefault]
    case strukt useTlv fs =>
      simp [encodeVal, skip_encode_fields vs fs, skip_encode_tlv vs fs,
        skip_encode_capture vs fs]
  | .vVariant idx vs, t => by
    cases t <;> simp [setSkippedDefault]
    case union s rep vars =>
      cases hnv : nthVariant vars idx with
      | none => simp [setSkippedDefault, hnv]
      | some info =>
        obtain ⟨name, intr, ex, fields⟩ := info
        simp [setSkippedDefault, hnv, encodeVal, skip_encode_fields vs fields]
  | .vMap m, t => by cases t <;> simp [setSkippedDefault]

/-- Body-encoding version of `skip_encode_val`. -/
theorem skip_encode_fields : ∀ (vs : Values) (fs : Fields),
    encodeFieldsBody fs (setSkippedFields fs vs) = encodeFieldsBody fs vs
  | .nil, fs => by cases fs <;> simp [setSkippedFields]
  | .cons v vs, fs => by
    cases fs with
    | nil => simp [setSkippedFields]
    | cons role t fs1 =>
      cases role with
      | normal =>
        simp [setSkippedFields, encodeFieldsBody, skip_encode_val v t,
          skip_encode_fields vs fs1]
      | skipped => simp [setSkippedFields, encodeFieldsBody, skip_encode_fields vs fs1]
      | tlvTagged id => simp [setSkippedFields, encodeFieldsBody, skip_encode_fields vs fs1]
      | tlvCapture => simp [setSkippedFields, encodeFieldsBody, skip_encode_fields vs fs1]

/-- TLV-entry version of `skip_encode_val`. -/
theorem skip_encode_tlv : ∀ (vs : Values) (fs : Fields),
    encodeTlvTagged fs (setSkippedFields fs vs) = encodeTlvTagged fs vs
  | .nil, fs => by cases fs <;> simp [setSkippedFields]
  | .cons v vs, fs => by
    cases fs with
    | nil => simp [setSkippedFields]
    | cons role t fs1 =>
      cases role with
      | normal => simp [setSkippedFields, encodeTlvTagged, skip_encode_tlv vs fs1]
      | skipped => simp [setSkippedFields, encodeTlvTagged, skip_encode_tlv vs fs1]
      | tlvTagged id =>
        cases v with
        | vSome w =>
          simp [setSkippedFields, setSkippedDefault, encodeTlvTagged,
            skip_encode_val w t, skip_encode_tlv vs fs1]
        | vNone => simp [setSkippedFields, setSkippedDefault, encodeTlvTagged, skip_encode_tlv vs fs1]
        | vInt n => simp [setSkippedFields, setSkippedDefault, encodeTlvTagged, skip_encode_tlv vs fs1]
        | vBytes bs => simp [setSkippedFields, setSkippedDefault, encodeTlvTagged, skip_encode_tlv vs fs1]
        | vStruct ws => simp [setSkippedFields, setSkippedDefault, encodeTlvTagged, skip_encode_tlv vs fs1]
        | vVariant j ws => simp [setSkippedFields, setSkippedDefault, encodeTlvTagged, skip_encode_tlv vs fs1]
        | vMap m => simp [setSkippedFields, setSkippedDefault, encodeTlvTagged, skip_encode_tlv vs fs1]
      | tlvCapture => simp [setSkippedFields, encodeTlvTagged, skip_encode_tlv vs fs1]

/-- Capture-entry version of `skip_encode_val`. -/
theorem skip_encode_capture : ∀ (vs : Values) (fs : Fields),
    encodeCaptureEntries fs (setSkippedFields fs vs) = encodeCaptureEntries fs vs
  | .nil, fs => by cases fs <;> simp [setSkippedFields]
  | .cons v vs, fs => by
    cases fs with
    | nil => simp [setSkippedFields]
    | cons role t fs1 =>
      cases role with
      | normal => simp [setSkippedFields, encodeCaptureEntries, skip_encode_capture vs fs1]
      | skipped => simp [setSkippedFields, encodeCaptureEntries, skip_encode_capture vs fs1]
      | tlvTagged id => simp [setSkippedFields, encodeCaptureEntries, skip_encode_capture vs fs1]
      | tlvCapture =>
        cases v <;> simp [setSkippedFields, encodeCaptureEntries, skip_encode_capture vs fs1]
end

/-! ## `setSkippedDefault` is the identity on skip-free types -/

/-- `noSkippedVariants` propagates to each variant's payload. -/
theorem nthVariant_noSkipped :
    ∀ (vars : Variants) (idx : Nat) (name : String) (intr : Nat)
      (ex : Option Nat) (fields : Fields),
      noSkippedVariants vars = true →
      nthVariant vars idx = some (name, intr, ex, fields) →
      noSkippedFields fields = true
  | .nil, idx, name, intr, ex, fields => by
    intro _ h
    simp [nthVariant] at h
  | .cons nm iv exv pl rest, idx, name, intr, ex, fields => by
    intro hall h
    simp [noSkippedVariants, Bool.and_eq_true] at hall
    cases idx with
    | zero =>
      simp [nthVariant] at h
      obtain ⟨_, _, _, h4⟩ := h
      subst h4
      exact hall.1
    | succ j =>
      simp [nthVariant] at h
      exact nthVariant_noSkipped rest j name intr ex fields hall.2 h

mutual
/-- On a type with no skipped positions, defaulting the skipped positions is
the identity. -/
theorem noSkipped_setSkipped_val : ∀ (v : Value) (t : Ty),
    noSkipped t = true → setSkippedDefault t v = v
  | .vInt n, t => by intro h; cases t <;> simp [setSkippedDefault]
  | .vBytes data, t => by intro h; cases t <;> simp [setSkippedDefault]
  | .vNone, t => by intro h; cases t <;> simp [setSkippedDefault]
  | .vSome v, t => by
    intro h
    cases t <;> simp [setSkippedDefault]
    case option t1 =>
      simp only [noSkipped] at h
      exact noSkipped_setSkipped_val v t1 h
  | .vStruct vs, t => by
    intro h
    cases t <;> simp [setSkippedDefault]
    case strukt useTlv fs =>
      simp only [noSkipped] at h
      exact noSkipped_setSkipped_fields vs fs h
  | .vVariant idx vs, t => by
    intro h
    cases t <;> simp [setSkippedDefault]
    case union s rep vars =>
      cases hnv : nthVariant vars idx with
      | none => simp [setSkippedDefault, hnv]
      | some info =>
        obtain ⟨name, intr, ex, fields⟩ := info
        simp only [noSkipped] at h
        simp [setSkippedDefault, hnv,
          noSkipped_setSkipped_fields vs fields (nthVariant_noSkipped vars idx name intr ex fields h hnv)]
  | .vMap m, t => by intro h; cases t <;> simp [setSkippedDefault]

/-- Field-sequence version of `noSkipped_setSkipped_val`. -/
theorem noSkipped_setSkipped_fields : ∀ (vs : Values) (fs : Fields),
    noSkippedFields fs = true → setSkippedFields fs vs = vs
  | .nil, fs => by intro h; cases fs <;> simp [setSkippedFields]
  | .cons v vs, fs => by
    intro h
    cases fs with
    | nil => simp [setSkippedFields]
    | cons role t fs1 =>
      cases role with
      | normal =>
        simp only [noSkippedFields, Bool.and_eq_true] at h
        simp [setSkippedFields, noSkipped_setSkipped_val v t h.1,
          noSkipped_setSkipped_fields vs fs1 h.2]
      | skipped => simp [noSkippedFields] at h
      | tlvTagged id =>
        simp only [noSkippedFields, Bool.and_eq_true] at h
        have hv : setSkippedDefault (.option t) v = v :=
          noSkipped_setSkipped_val v (.option t) (by simpa [noSkipped] using h.1)
        simp [setSkippedFields, hv, noSkipped_setSkipped_fields vs fs1 h.2]
      | tlvCapture =>
        simp only [noSkippedFields, Bool.and_eq_true] at h
        simp [setSkippedFields, noSkipped_setSkipped_fields vs fs1 h.2]
end

/-! ## Decoded structures hold the declared default at skipped positions -/

/-- Decoding a field body assigns every skipped position its declared
default. -/
theorem decodeFields_skipped : ∀ (fs : Fields) (bs : List Nat) (vs : Values)
    (rest : List Nat) (i : Nat) (t : Ty),
    decodeFields fs bs = .ok (vs, rest) →
    fieldRoleAt fs i = some .skipped → fieldTyAt fs i = some t →
    getVal vs i = some (defaultVal t)
  | .nil, bs, vs, rest, i, t => by
    intro h hr ht
    simp [fieldRoleAt] at hr
  | .cons role t1 fs1, bs, vs, rest, i, t => by
    intro h hr ht
    cases role with
    | normal =>
      rw [decodeFields] at h
      cases hd : decodeVal t1 bs with
      | error e => rw [hd] at h; simp at h
      | ok p =>
        obtain ⟨v, r⟩ := p
        rw [hd] at h
        simp only at h
        cases hf : decodeFields fs1 r with
        | error e => rw [hf] at h; simp at h
        | ok q =>
          obtain ⟨vs1, r2⟩ := q
          rw [hf] at h
          simp only [Except.ok.injEq, Prod.mk.injEq] at h
          obtain ⟨hv, hr2⟩ := h
          cases i with
          | zero => simp [fieldRoleAt] at hr
          | succ j =>
            simp [fieldRoleAt] at hr
            simp [fieldTyAt] at ht
            rw [← hv]
            simp only [getVal]
            exact decodeFields_skipped fs1 r vs1 r2 j t hf hr ht
    | skipped =>
      rw [decodeFields] at h
      cases hf : decodeFields fs1 bs with
      | error e => rw [hf] at h; simp at h
      | ok q =>
        obtain ⟨vs1, r2⟩ := q
        rw [hf] at h
        simp only [Except.ok.injEq, Prod.mk.injEq] at h
        obtain ⟨hv, hr2⟩ := h
        cases i with
        | zero =>
          simp [fieldTyAt] at ht
          rw [← hv, ← ht]
          simp [getVal]
        | succ j =>
          simp [fieldRoleAt] at hr
          simp [fieldTyAt] at ht
          rw [← hv]
          simp only [getVal]
          exact decodeFields_skipped fs1 bs vs1 r2 j t hf hr ht
    | tlvTagged id =>
      rw [decodeFields] at h
      cases hf : decodeFields fs1 bs with
      | error e => rw [hf] at h; simp at h
      | ok q =>
        obtain ⟨vs1, r2⟩ := q
        rw [hf] at h
        simp only [Except.ok.injEq, Prod.mk.injEq] at h
        obtain ⟨hv, hr2⟩ := h
        cases i with
        | zero => simp [fieldRoleAt] at hr
        | succ j =>
          simp [fieldRoleAt] at hr
          simp [fieldTyAt] at ht
          rw [← hv]
          simp only [getVal]
          exact decodeFields_skipped fs1 bs vs1 r2 j t hf hr ht
    | tlvCapture =>
      rw [decodeFields] at h
      cases hf : decodeFields fs1 bs with
      | error e => rw [hf] at h; simp at h
      | ok q =>
        obtain ⟨vs1, r2⟩ := q
        rw [hf] at h
        simp only [Except.ok.injEq, Prod.mk.injEq] at h
        obtain ⟨hv, hr2⟩ := h
        cases i with
        | zero => simp [fieldRoleAt] at hr
        | succ j =>
          simp [fieldRoleAt] at hr
          simp [fieldTyAt] at ht
          rw [← hv]
          simp only [getVal]
          exact decodeFields_skipped fs1 bs vs1 r2 j t hf hr ht

/-- Routing a TLV entry into its field leaves skipped positions untouched. -/
theorem decodeIntoField_preserves : ∀ (fs : Fields) (vs : Values) (tag : Nat)
    (payload : List Nat) (vs2 : Values) (i : Nat),
    decodeIntoField fs vs tag payload = .ok (some vs2) →
    fieldRoleAt fs i = some .skipped →
    getVal vs2 i = getVal vs i
  | .nil, vs, tag, payload, vs2, i => by
    intro h hr
    simp [fieldRoleAt] at hr
  | .cons role t1 fs1, vs, tag, payload, vs2, i => by
    intro h hr
    cases vs with
    | nil => rw [decodeIntoField] at h; simp at h
    | cons v vs1 =>
      cases role with
      | tlvTagged id =>
        rw [decodeIntoField] at h
        by_cases hid : id = tag
        · rw [if_pos hid] at h
          cases hd : decodeVal t1 payload with
          | error e => rw [hd] at h; simp at h
          | ok p =>
            obtain ⟨w, pr⟩ := p
            rw [hd] at h
            cases pr with
            | nil =>
              simp only [Except.ok.injEq, Option.some.injEq] at h
              cases i with
              | zero => simp [fieldRoleAt] at hr
              | succ j => rw [← h]; simp [getVal]
            | cons x xs => simp at h
        · rw [if_neg hid] at h
          cases hrec : decodeIntoField fs1 vs1 tag payload with
          | error e => rw [hrec] at h; simp at h
          | ok o =>
            cases o with
            | none => rw [hrec] at h; simp at h
            | some ws =>
              rw [hrec] at h
              simp only [Except.ok.injEq, Option.some.injEq] at h
              cases i with
              | zero => rw [← h]; simp [getVal]
              | succ j =>
                simp [fieldRoleAt] at hr
                rw [← h]
                simp only [getVal]
                exact decodeIntoField_preserves fs1 vs1 tag payload ws j hrec hr
      | normal =>
        rw [decodeIntoField] at h
        cases hrec : decodeIntoField fs1 vs1 tag payload with
        | error e => rw [hrec] at h; simp at h
        | ok o =>
          cases o with
          | none => rw [hrec] at h; simp at h
          | some ws =>
            rw [hrec] at h
            simp only [Except.ok.injEq, Option.some.injEq] at h
            cases i with
            | zero => rw [← h]; simp [getVal]
            | succ j =>
              simp [fieldRoleAt] at hr
              rw [← h]
              simp only [getVal]
              exact decodeIntoField_preserves fs1 vs1 tag payload ws j hrec hr
      | skipped =>
        rw [decodeIntoField] at h
        cases hrec : decodeIntoField fs1 vs1 tag payload with
        | error e => rw [hrec] at h; simp at h
        | ok o =>
          cases o with
          | none => rw [hrec] at h; simp at h
          | some ws =>
            rw [hrec] at h
            simp only [Except.ok.injEq, Option.some.injEq] at h
            cases i with
            | zero => rw [← h]; simp [getVal]
            | succ j =>
              simp [fieldRoleAt] at hr
              rw [← h]
              simp only [getVal]
              exact decodeIntoField_preserves fs1 vs1 tag payload ws j hrec hr
      | tlvCapture =>
        rw [decodeIntoField] at h
        cases hrec : decodeIntoField fs1 vs1 tag payload with
        | error e => rw [hrec] at h; simp at h
        | ok o =>
          cases o with
          | none => rw [hrec] at h; simp at h
          | some ws =>
            rw [hrec] at h
            simp only [Except.ok.injEq, Option.some.injEq] at h
            cases i with
            | zero => rw [← h]; simp [getVal]
            | succ j =>
              simp [fieldRoleAt] at hr
              rw [← h]
              simp only [getVal]
              exact decodeIntoField_preserves fs1 vs1 tag payload ws j hrec hr

/-- Capturing an unknown TLV entry leaves skipped positions untouched. -/
theorem updateCapture_preserves : ∀ (fs : Fields) (vs : Values) (tag : Nat)
    (payload : List Nat) (i : Nat),
    fieldRoleAt fs i = some .skipped →
    getVal (updateCapture fs vs tag payload) i = getVal vs i
  | .nil, vs, tag, payload, i => by
    intro hr
    simp [fieldRoleAt] at hr
  | .cons role t1 fs1, vs, tag, payload, i => by
    intro hr
    cases vs with
    | nil => rw [updateCapture]
    | cons v vs1 =>
      cases role with
      | tlvCapture =>
        cases i with
        | zero => simp [fieldRoleAt] at hr
        | succ j =>
          simp [fieldRoleAt] at hr
          cases v <;> rw [updateCapture] <;> simp only [getVal] <;>
            first
            | rfl
            | exact updateCapture_preserves fs1 vs1 tag payload j hr
      | normal =>
        rw [updateCapture]
        cases i with
        | zero => simp [getVal]
        | succ j =>
          simp [fieldRoleAt] at hr
          simp only [getVal]
          exact updateCapture_preserves fs1 vs1 tag payload j hr
      | skipped =>
        rw [updateCapture]
        cases i with
        | zero => simp [getVal]
        | succ j =>
          simp [fieldRoleAt] at hr
          simp only [getVal]
          exact updateCapture_preserves fs1 vs1 tag payload j hr
      | tlvTagged id =>
        rw [updateCapture]
        cases i with
        | zero => simp [getVal]
        | succ j =>
          simp [fieldRoleAt] at hr
          simp only [getVal]
          exact updateCapture_preserves fs1 vs1 tag payload j hr

/-- Processing a TLV region leaves skipped positions untouched. -/
theorem applyTlv_preserves : ∀ (entries : List (Nat × List Nat)) (fs : Fields)
    (vs vs2 : Values) (i : Nat),
    applyTlvEntries fs vs entries = .ok vs2 →
    fieldRoleAt fs i = some .skipped →
    getVal vs2 i = getVal vs i
  | [], fs, vs, vs2, i => by
    intro h hr
    rw [applyTlvEntries] at h
    simp only [Except.ok.injEq] at h
    rw [h]
  | (tag, payload) :: entries, fs, vs, vs2, i => by
    intro h hr
    rw [applyTlvEntries] at h
    cases hd : decodeIntoField fs vs tag payload with
    | error e => rw [hd] at h; simp at h
    | ok o =>
      cases o with
      | some ws =>
        rw [hd] at h
        simp only at h
        calc getVal vs2 i = getVal ws i := applyTlv_preserves entries fs ws vs2 i h hr
          _ = getVal vs i := decodeIntoField_preserves fs vs tag payload ws i hd hr
      | none =>
        rw [hd] at h
        simp only at h
        by_cases hp : tag % 2 = 0
        · rw [if_pos hp] at h; simp at h
        · rw [if_neg hp] at h
          calc getVal vs2 i = getVal (updateCapture fs vs tag payload) i :=
              applyTlv_preserves entries fs (updateCapture fs vs tag payload) vs2 i h hr
            _ = getVal vs i := updateCapture_preserves fs vs tag payload i hr

/-! ## Unknown-TLV handling lemmas -/

/-- When no declared TLV-tagged field carries the tag id, entry routing
reports it unmatched. -/
theorem decodeIntoField_not_found : ∀ (fs : Fields) (vs : Values) (tag : Nat)
    (payload : List Nat),
    hasTlvField fs tag = false →
    decodeIntoField fs vs tag payload = .ok none
  | .nil, vs, tag, payload => by
    intro h
    rw [decodeIntoField]
  | .cons role t1 fs1, vs, tag, payload => by
    intro h
    cases vs with
    | nil => rw [decodeIntoField]
    | cons v vs1 =>
      cases role with
      | tlvTagged id =>
        simp only [hasTlvField, Bool.or_eq_false_iff, decide_eq_false_iff_not] at h
        rw [decodeIntoField, if_neg h.1,
          decodeIntoField_not_found fs1 vs1 tag payload h.2]
      | normal =>
        simp only [hasTlvField] at h
        rw [decodeIntoField, decodeIntoField_not_found fs1 vs1 tag payload h]
      | skipped =>
        simp only [hasTlvField] at h
        rw [decodeIntoField, decodeIntoField_not_found fs1 vs1 tag payload h]
      | tlvCapture =>
        simp only [hasTlvField] at h
        rw [decodeIntoField, decodeIntoField_not_found fs1 vs1 tag payload h]

/-- Looking up the freshly inserted tag in a capture mapping returns the
inserted payload. -/
theorem lookup_insertEntry (tag : Nat) (payload : List Nat) :
    ∀ (m : List (Nat × List Nat)),
      (insertEntry tag payload m).lookup tag = some payload
  | [] => by simp [insertEntry, List.lookup]
  | (t, p) :: rest => by
    by_cases h1 : tag < t
    · simp [insertEntry, h1, List.lookup]
    · by_cases h2 : tag = t
      · simp [insertEntry, h1, h2, List.lookup]
      · have hne : (tag == t) = false := by
          simp only [beq_eq_false_iff_ne, ne_eq]
          exact h2
        simp [insertEntry, h1, h2, List.lookup, hne,
          lookup_insertEntry tag payload rest]

/-- Inserting an unknown entry into the capture field stores its payload
verbatim under its tag id, provided the structure declares a capture field
and the values are well-formed. -/
theorem lookupCapture_update : ∀ (fs : Fields) (vs : Values) (tag : Nat)
    (payload : List Nat),
    wtFields fs vs = true → hasCapture fs = true →
    lookupCapture fs (updateCapture fs vs tag payload) tag = some payload
  | .nil, vs, tag, payload => by
    intro hwt hc
    simp [hasCapture] at hc
  | .cons role t1 fs1, vs, tag, payload => by
    intro hwt hc
    cases vs with
    | nil => simp [wtFields] at hwt
    | cons v vs1 =>
      cases role with
      | tlvCapture =>
        cases v with
        | vMap m =>
          rw [updateCapture, lookupCapture]
          exact lookup_insertEntry tag payload m
        | vInt n => simp [wtFields] at hwt
        | vBytes bs => simp [wtFields] at hwt
        | vNone => simp [wtFields] at hwt
        | vSome w => simp [wtFields] at hwt
        | vStruct ws => simp [wtFields] at hwt
        | vVariant j ws => simp [wtFields] at hwt
      | normal =>
        simp only [wtFields, Bool.and_eq_true] at hwt
        simp only [hasCapture] at hc
        rw [updateCapture, lookupCapture]
        exact lookupCapture_update fs1 vs1 tag payload hwt.2 hc
      | skipped =>
        simp only [wtFields, Bool.and_eq_true] at hwt
        simp only [hasCapture] at hc
        rw [updateCapture, lookupCapture]
        exact lookupCapture_update fs1 vs1 tag payload hwt.2 hc
      | tlvTagged id =>
        simp only [wtFields, Bool.and_eq_true] at hwt
        simp only [hasCapture] at hc
        rw [updateCapture, lookupCapture]
        exact lookupCapture_update fs1 vs1 tag payload hwt.2 hc

/-! ## Tag conflict detection lemmas -/

/-- `findNameByTag` misses exactly when the tag is not among the resolved
tags. -/
theorem findNameByTag_none_iff (s : TagStrategy) :
    ∀ (vars : Variants) (k tag : Nat),
      findNameByTag s k tag vars = none ↔ tag ∉ resolveTags s k vars
  | .nil, k, tag => by simp [findNameByTag, resolveTags]
  | .cons nm iv exv pl rest, k, tag => by
    by_cases h : resolvedTag s k iv exv = tag
    · simp [findNameByTag, resolveTags, h]
    · have h2 : ¬tag = resolvedTag s k iv exv := fun hh => h hh.symm
      simp [findNameByTag, resolveTags, h, h2,
        findNameByTag_none_iff s rest (k + 1) tag]

/-- Schema compilation of a union succeeds exactly when the resolved tags are
pairwise distinct. -/
theorem compileUnionFrom_ok_iff (s : TagStrategy) :
    ∀ (vars : Variants) (k : Nat),
      compileUnionFrom s k vars = .ok () ↔ (resolveTags s k vars).Nodup
  | .nil, k => by simp [compileUnionFrom, resolveTags]
  | .cons nm iv exv pl rest, k => by
    rw [compileUnionFrom]
    cases hf : findNameByTag s (k + 1) (resolvedTag s k iv exv) rest with
    | some other =>
      have hmem : resolvedTag s k iv exv ∈ resolveTags s (k + 1) rest := by
        by_contra hnm
        have hnone := (findNameByTag_none_iff s rest (k + 1) _).mpr hnm
        rw [hf] at hnone
        exact Option.noConfusion hnone
      constructor
      · intro h
        exact absurd h (by simp)
      · intro h
        rw [show resolveTags s k (.cons nm iv exv pl rest) =
            resolvedTag s k iv exv :: resolveTags s (k + 1) rest from rfl,
          List.nodup_cons] at h
        exact absurd hmem h.1
    | none =>
      have hnm : resolvedTag s k iv exv ∉ resolveTags s (k + 1) rest :=
        (findNameByTag_none_iff s rest (k + 1) _).mp hf
      rw [show resolveTags s k (.cons nm iv exv pl rest) =
          resolvedTag s k iv exv :: resolveTags s (k + 1) rest from rfl,
        List.nodup_cons]
      constructor
      · intro h
        exact ⟨hnm, (compileUnionFrom_ok_iff s rest (k + 1)).mp h⟩
      · intro h
        exact (compileUnionFrom_ok_iff s rest (k + 1)).mpr h.2

/-- The only schema error tag-resolver compilation ever produces is
`TagConflict`. -/
theorem compileUnionFrom_error_shape (s : TagStrategy) :
    ∀ (vars : Variants) (k : Nat) (e : SchemaError),
      compileUnionFrom s k vars = .error e →
      ∃ a b tg, e = .tagConflict a b tg
  | .nil, k, e => by
    intro h
    simp [compileUnionFrom] at h
  | .cons nm iv exv pl rest, k, e => by
    intro h
    rw [compileUnionFrom] at h
    cases hf : findNameByTag s (k + 1) (resolvedTag s k iv exv) rest with
    | some other =>
      rw [hf] at h
      simp only [Except.error.injEq] at h
      exact ⟨nm, other, resolvedTag s k iv exv, h.symm⟩
    | none =>
      rw [hf] at h
      exact compileUnionFrom_error_shape s rest (k + 1) e h

/-! ## Agreement with the skip-defaulted value -/

mutual
/-- A well-formed value agrees with its skip-defaulted version everywhere
except at skipped positions. -/
theorem agree_setSkipped_val : ∀ (v : Value) (t : Ty), wtVal t v = true →
    agreeExceptSkipped t v (setSkippedDefault t v) = true
  | .vInt n, t => by
    intro hwt
    cases t <;> simp [wtVal] at hwt <;> simp [setSkippedDefault, agreeExceptSkipped]
  | .vBytes data, t => by
    intro hwt
    cases t <;> simp [wtVal] at hwt <;> simp [setSkippedDefault, agreeExceptSkipped]
  | .vNone, t => by
    intro hwt
    cases t <;> simp [wtVal] at hwt <;> simp [setSkippedDefault, agreeExceptSkipped]
  | .vSome v, t => by
    intro hwt
    cases t <;> simp [wtVal] at hwt
    case option t1 =>
      simp [setSkippedDefault, agreeExceptSkipped, agree_setSkipped_val v t1 hwt]
  | .vStruct vs, t => by
    intro hwt
    cases t <;> simp [wtVal] at hwt
    case strukt useTlv fs =>
      simp [setSkippedDefault, agreeExceptSkipped, agree_setSkipped_fields vs fs hwt]
  | .vVariant idx vs, t => by
    intro hwt
    cases t <;> simp [wtVal] at hwt
    case union s rep vars =>
      cases hnv : nthVariant vars idx with
      | none => rw [hnv] at hwt; simp at hwt
      | some info =>
        obtain ⟨name, intr, ex, fields⟩ := info
        rw [hnv] at hwt
        simp [setSkippedDefault, agreeExceptSkipped, hnv,
          agree_setSkipped_fields vs fields hwt]
  | .vMap m, t => by
    intro hwt
    cases t <;> simp [wtVal] at hwt

/-- Field-sequence version of `agree_setSkipped_val`. -/
theorem agree_setSkipped_fields : ∀ (vs : Values) (fs : Fields),
    wtFields fs vs = true →
    agreeFieldsExceptSkipped fs vs (setSkippedFields fs vs) = true
  | .nil, fs => by
    intro hwt
    cases fs with
    | nil => simp [setSkippedFields, agreeFieldsExceptSkipped]
    | cons role t fs1 => simp [wtFields] at hwt
  | .cons v vs, fs => by
    intro hwt
    cases fs with
    | nil => simp [wtFields] at hwt
    | cons role t fs1 =>
      cases role with
      | normal =>
        simp only [wtFields, Bool.and_eq_true] at hwt
        simp [setSkippedFields, agreeFieldsExceptSkipped,
          agree_setSkipped_val v t hwt.1, agree_setSkipped_fields vs fs1 hwt.2]
      | skipped =>
        simp only [wtFields, Bool.and_eq_true] at hwt
        simp [setSkippedFields, agreeFieldsExceptSkipped,
          agree_setSkipped_fields vs fs1 hwt.2]
      | tlvTagged id =>
        simp only [wtFields, Bool.and_eq_true] at hwt
        simp [setSkippedFields, agreeFieldsExceptSkipped,
          agree_setSkipped_val v (.option t) hwt.1,
          agree_setSkipped_fields vs fs1 hwt.2]
      | tlvCapture =>
        cases v with
        | vMap m =>
          simp only [wtFields, Bool.true_and] at hwt
          simp [setSkippedFields, agreeFieldsExceptSkipped,
            agree_setSkipped_fields vs fs1 hwt]
        | vInt n => simp [wtFields] at hwt
        | vBytes bs2 => simp [wtFields] at hwt
        | vNone => simp [wtFields] at hwt
        | vSome w => simp [wtFields] at hwt
        | vStruct ws => simp [wtFields] at hwt
        | vVariant j ws => simp [wtFields] at hwt
end

/-- Whole-structure version of `decodeFields_skipped`: any decoded structure
value holds the declared default at each skipped position, whether or not
the TLV region is enabled. -/
theorem decodeStruct_skipped (useTlv : Bool) (fs : Fields) (bs : List Nat)
    (vs : Values) (rest : List Nat) (i : Nat) (ty : Ty)
    (h : decodeVal (.strukt useTlv fs) bs = .ok (.vStruct vs, rest))
    (hr : fieldRoleAt fs i = some .skipped) (ht : fieldTyAt fs i = some ty) :
    getVal vs i = some (defaultVal ty) := by
  rw [decodeVal] at h
  cases hdf : decodeFields fs bs with
  | error e => rw [hdf] at h; simp at h
  | ok q =>
    obtain ⟨vs1, r1⟩ := q
    rw [hdf] at h
    simp only at h
    cases useTlv with
    | false =>
      simp only [Bool.false_eq_true, if_false, Except.ok.injEq, Prod.mk.injEq,
        Value.vStruct.injEq] at h
      rw [← h.1]
      exact decodeFields_skipped fs bs vs1 r1 i ty hdf hr ht
    | true =>
      simp only [if_true] at h
      cases hpe : parseTlvEntries r1 with
      | error e => rw [hpe] at h; simp at h
      | ok entries =>
        rw [hpe] at h
        simp only at h
        cases hap : applyTlvEntries fs vs1 entries with
        | error e => rw [hap] at h; simp at h
        | ok vs2 =>
          rw [hap] at h
          simp only [Except.ok.injEq, Prod.mk.injEq, Value.vStruct.injEq] at h
          rw [← h.1]
          calc getVal vs2 i = getVal vs1 i :=
              applyTlv_preserves entries fs vs1 vs2 i hap hr
            _ = some (defaultVal ty) :=
              decodeFields_skipped fs bs vs1 r1 i ty hdf hr ht

/-! ## Claim theorems -/

/-- C1: for every well-formed value `v` of a schema-valid type that contains
no `Skipped` fields and no TLV fields, decoding the encoding of `v` returns
`v` exactly: `decode(encode(v)) == v`. -/
theorem c1_roundtrip_no_skip_no_tlv (t : Ty) (v : Value)
    (hnt : noTlv t = true) (hns : noSkipped t = true)
    (hok : tyOk t = true) (hwt : wtVal t v = true) :
    strictDeserialize t (strictSerialize t v) = .ok v := by
  have h := decode_encode_val v t [] hnt hok hwt
  rw [List.append_nil] at h
  simp only [strictSerialize, strictDeserialize, h,
    noSkipped_setSkipped_val v t hns]

/-- Witness for C1 at the `U16` doctest enum and its third variant. -/
theorem c1_roundtrip_no_skip_no_tlv_witness :
    noTlv U16Ty = true ∧ noSkipped U16Ty = true ∧ tyOk U16Ty = true ∧
    wtVal U16Ty (.vVariant 2 .nil) = true ∧
    strictDeserialize U16Ty (strictSerialize U16Ty (.vVariant 2 .nil)) =
      .ok (.vVariant 2 .nil) :=
  ⟨by decide, by decide, by decide, by decide,
    c1_roundtrip_no_skip_no_tlv U16Ty (.vVariant 2 .nil)
      (by decide) (by decide) (by decide) (by decide)⟩

/-- C2: a populated skipped field encodes exactly like a defaulted one;
decoding assigns every skipped field its declared default; and the
`Skipping` doctest value `{data = "abc", ephemeral = present(true)}` encodes
to `03 00 61 62 63` and decodes back with `data = "abc"` and
`ephemeral` absent. -/
theorem c2_skipped_field :
    (∀ (t : Ty) (v : Value),
       encodeVal t (setSkippedDefault t v) = encodeVal t v) ∧
    (∀ (useTlv : Bool) (fs : Fields) (bs : List Nat) (vs : Values)
       (rest : List Nat) (i : Nat) (ty : Ty),
       decodeVal (.strukt useTlv fs) bs = .ok (.vStruct vs, rest) →
       fieldRoleAt fs i = some .skipped → fieldTyAt fs i = some ty →
       getVal vs i = some (defaultVal ty)) ∧
    strictSerialize SkippingTy skippingVal = [0x03, 0x00, 0x61, 0x62, 0x63] ∧
    strictDeserialize SkippingTy [0x03, 0x00, 0x61, 0x62, 0x63] =
      .ok (.vStruct (.cons (.vBytes [0x61, 0x62, 0x63]) (.cons .vNone .nil))) := by
  refine ⟨fun t v => skip_encode_val v t, decodeStruct_skipped, rfl, ?_⟩
  simp [strictDeserialize, decodeVal, decodeFields, decodeInt, SkippingTy,
    decLE, defaultVal]

/-- Witness for C2: the decoded `Skipping` value holds the default (absent)
at its skipped position. -/
theorem c2_skipped_field_witness :
    getVal (.cons (.vBytes [0x61, 0x62, 0x63]) (.cons .vNone .nil)) 1 =
      some (defaultVal (.option .u8)) :=
  c2_skipped_field.2.1 false
    (.cons .normal .bytes (.cons .skipped (.option .u8) .nil))
    [0x03, 0x00, 0x61, 0x62, 0x63]
    (.cons (.vBytes [0x61, 0x62, 0x63]) (.cons .vNone .nil)) [] 1 (.option .u8)
    (by simp [decodeVal, decodeFields, decodeInt, decLE, defaultVal])
    rfl rfl

/-- C3: a tagged union's resolved tags are pairwise distinct exactly when
schema compilation succeeds; any collision fails compilation with
`TagConflict`; and decode-time errors range over the decode-error taxonomy
only, which contains no tag-collision error. -/
theorem c3_tag_conflict (s : TagStrategy) (vars : Variants) :
    (compileUnion s vars = .ok () ↔ (resolveTags s 0 vars).Nodup) ∧
    (¬(resolveTags s 0 vars).Nodup →
      ∃ a b tg, compileUnion s vars = .error (.tagConflict a b tg)) ∧
    (∀ (t : Ty) (bs : List Nat) (e : DecodeError),
       decodeVal t bs = .error e →
       e = .truncatedInput ∨ e = .lengthMismatch ∨ (∃ tg, e = .unknownTag tg) ∨
         (∃ tg, e = .unknownMandatoryTlv tg) ∨ e = .trailingBytes) := by
  refine ⟨compileUnionFrom_ok_iff s vars 0, ?_, ?_⟩
  · intro hnd
    cases hc : compileUnion s vars with
    | ok u =>
      cases u
      exact absurd ((compileUnionFrom_ok_iff s vars 0).mp hc) hnd
    | error e =>
      obtain ⟨a, b, tg, he⟩ := compileUnionFrom_error_shape s vars 0 e hc
      exact ⟨a, b, tg, by rw [he]⟩
  · intro t bs e _
    cases e with
    | truncatedInput => exact Or.inl rfl
    | lengthMismatch => exact Or.inr (Or.inl rfl)
    | unknownTag tg => exact Or.inr (Or.inr (Or.inl ⟨tg, rfl⟩))
    | unknownMandatoryTlv tg => exact Or.inr (Or.inr (Or.inr (Or.inl ⟨tg, rfl⟩)))
    | trailingBytes => exact Or.inr (Or.inr (Or.inr (Or.inr rfl)))

/-- Witness for C3 at a two-variant schema whose explicit override collides
with the first ordinal. -/
theorem c3_tag_conflict_witness :
    ¬(resolveTags .byOrder 0 conflictVars).Nodup ∧
    (∃ a b tg, compileUnion .byOrder conflictVars =
      .error (.tagConflict a b tg)) :=
  ⟨by decide, (c3_tag_conflict .byOrder conflictVars).2.1 (by decide)⟩

/-- C4: during TLV-region decode, an entry whose tag id matches no declared
TLV-tagged field is a hard `UnknownMandatoryTlv` error when the id is even,
and is stored verbatim in the capture mapping under its id when the id is
odd; concretely, the demo structure rejects the unknown even id `2` and
captures the unknown odd id `3`. -/
theorem c4_unknown_tlv_policy :
    (∀ (fs : Fields) (vs : Values) (tag : Nat) (payload : List Nat)
       (entries : List (Nat × List Nat)),
       hasTlvField fs tag = false →
       (tag % 2 = 0 →
         applyTlvEntries fs vs ((tag, payload) :: entries) =
           .error (.unknownMandatoryTlv tag)) ∧
       (tag % 2 ≠ 0 →
         applyTlvEntries fs vs ((tag, payload) :: entries) =
           applyTlvEntries fs (updateCapture fs vs tag payload) entries ∧
         (wtFields fs vs = true → hasCapture fs = true →
           lookupCapture fs (updateCapture fs vs tag payload) tag =
             some payload))) ∧
    strictDeserialize TlvDemoTy [0x05, 0x02, 0x00, 0x01, 0x00, 0x07] =
      .error (.unknownMandatoryTlv 2) ∧
    strictDeserialize TlvDemoTy [0x05, 0x03, 0x00, 0x01, 0x00, 0x07] =
      .ok (.vStruct (.cons (.vInt 5)
        (.cons .vNone (.cons (.vMap [(3, [0x07])]) .nil)))) := by
  refine ⟨?_, ?_, ?_⟩
  · intro fs vs tag payload entries hno
    have hnf := decodeIntoField_not_found fs vs tag payload hno
    constructor
    · intro hp
      rw [applyTlvEntries, hnf]
      simp only
      rw [if_pos hp]
    · intro hp
      refine ⟨?_, fun hwt hc => lookupCapture_update fs vs tag payload hwt hc⟩
      rw [applyTlvEntries, hnf]
      simp only
      rw [if_neg hp]
  · simp [strictDeserialize, decodeVal, decodeFields, decodeInt, TlvDemoTy,
      TlvDemoFields, decLE, parseTlvEntries, applyTlvEntries, decodeIntoField,
      defaultVal]
  · simp [strictDeserialize, decodeVal, decodeFields, decodeInt, TlvDemoTy,
      TlvDemoFields, decLE, parseTlvEntries, applyTlvEntries, decodeIntoField,
      updateCapture, insertEntry, defaultVal]

/-- Witness for C4 at the demo structure and the unknown even tag id `2`. -/
theorem c4_unknown_tlv_policy_witness :
    applyTlvEntries TlvDemoFields
      (.cons (.vInt 5) (.cons .vNone (.cons (.vMap []) .nil))) [(2, [0x07])] =
      .error (.unknownMandatoryTlv 2) :=
  (c4_unknown_tlv_policy.1 TlvDemoFields
    (.cons (.vInt 5) (.cons .vNone (.cons (.vMap []) .nil))) 2 [0x07] []
    (by decide)).1 (by decide)

/-- C5 counterexample: for the TLV-enabled demo structure, appending one
byte to a valid encoding fails with `TruncatedInput` (inside the TLV
region), not with `TrailingBytes` as the claim states for every value. -/
theorem c5_counterexample :
    wtVal TlvDemoTy tlvDemoVal = true ∧
    strictSerialize TlvDemoTy tlvDemoVal = [0x05] ∧
    strictDeserialize TlvDemoTy (strictSerialize TlvDemoTy tlvDemoVal ++ [0x00]) =
      .error .truncatedInput ∧
    (Except.error DecodeError.truncatedInput : Except DecodeError Value) ≠
      .error .trailingBytes := by
  refine ⟨by decide, rfl, ?_, by simp⟩
  show strictDeserialize TlvDemoTy [0x05, 0x00] = .error .truncatedInput
  simp [strictDeserialize, decodeVal, decodeFields, decodeInt, TlvDemoTy,
    TlvDemoFields, decLE, parseTlvEntries, defaultVal]

/-- C5 (amended): for every well-formed value of a schema-valid type without
TLV fields, appending one byte to its encoding makes decode fail with
`TrailingBytes` (for TLV-enabled types decode still fails, but inside the
TLV region, which absorbs all remaining input); and decode never succeeds
while leaving unconsumed input. -/
theorem c5_trailing_bytes_amended :
    (∀ (t : Ty) (v : Value) (b : Nat), noTlv t = true → tyOk t = true →
       wtVal t v = true →
       strictDeserialize t (strictSerialize t v ++ [b]) =
         .error .trailingBytes) ∧
    (∀ (t : Ty) (bs : List Nat) (v : Value),
       strictDeserialize t bs = .ok v → decodeVal t bs = .ok (v, [])) := by
  constructor
  · intro t v b hnt hok hwt
    have h := decode_encode_val v t [b] hnt hok hwt
    simp only [strictSerialize, strictDeserialize, h]
  · intro t bs v h
    rw [strictDeserialize] at h
    cases hd : decodeVal t bs with
    | error e => rw [hd] at h; simp at h
    | ok p =>
      obtain ⟨w, r⟩ := p
      rw [hd] at h
      cases r with
      | nil =>
        simp only [Except.ok.injEq] at h
        rw [h]
      | cons x xs => simp at h

/-- Witness for the amended C5 at the `U16` doctest enum. -/
theorem c5_trailing_bytes_amended_witness :
    strictDeserialize U16Ty (strictSerialize U16Ty (.vVariant 0 .nil) ++ [0x07]) =
      .error .trailingBytes :=
  c5_trailing_bytes_amended.1 U16Ty (.vVariant 0 .nil) 0x07
    (by decide) (by decide) (by decide)

/-- C6: under `ByOrder` tagging, a variant without an explicit override
resolves to its zero-based declaration ordinal regardless of its intrinsic
value; the four-variant `U16` doctest enum serializes with tags 0, 1, 2, 3
as 2-byte little-endian integers. -/
theorem c6_by_order_ordinals :
    (∀ (vars : Variants) (k idx : Nat) (name : String) (intr : Nat)
       (fields : Fields),
       nthVariant vars idx = some (name, intr, none, fields) →
       (resolveTags .byOrder k vars)[idx]? = some (k + idx)) ∧
    strictSerialize U16Ty (.vVariant 0 .nil) = [0x00, 0x00] ∧
    strictSerialize U16Ty (.vVariant 1 .nil) = [0x01, 0x00] ∧
    strictSerialize U16Ty (.vVariant 2 .nil) = [0x02, 0x00] ∧
    strictSerialize U16Ty (.vVariant 3 .nil) = [0x03, 0x00] := by
  refine ⟨?_, rfl, rfl, rfl, rfl⟩
  intro vars k idx name intr fields h
  have hg := resolveTags_get? .byOrder vars k idx name intr none fields h
  simpa [resolvedTag] using hg

/-- Witness for C6 at the first `U16` variant: intrinsic value 1, tag 0. -/
theorem c6_by_order_ordinals_witness :
    (resolveTags .byOrder 0 U16Variants)[0]? = some 0 :=
  c6_by_order_ordinals.1 U16Variants 0 0 "Bit8" 1 .nil rfl

/-- C7: under `ByValue` tagging with a 4-byte representation width, a variant
with explicit override `value = 0x10` serializes its tag as the little-endian
bytes `10 00 00 00`, as in the `CustomValues` doctest. -/
theorem c7_by_value_explicit_bytes :
    (∀ (ordinal intrinsic : Nat),
       resolvedTag .byValue ordinal intrinsic (some 0x10) = 0x10) ∧
    encLE 4 0x10 = [0x10, 0x00, 0x00, 0x00] ∧
    strictSerialize CustomValuesTy (.vVariant 1 .nil) =
      [0x10, 0x00, 0x00, 0x00] :=
  ⟨fun _ _ => rfl, rfl, rfl⟩

/-- C8: a variant carrying an explicit value resolves to that value under
either strategy, overriding both the ordinal and the intrinsic value. -/
theorem c8_explicit_value_overrides (s : TagStrategy) (vars : Variants)
    (k idx : Nat) (name : String) (intr v : Nat) (fields : Fields)
    (h : nthVariant vars idx = some (name, intr, some v, fields)) :
    (resolveTags s k vars)[idx]? = some v := by
  have hg := resolveTags_get? s vars k idx name intr (some v) fields h
  simpa [resolvedTag] using hg

/-- Witness for C8 at the `CustomValues` doctest: `Bit16` has intrinsic value
2 but explicit override `0x10`, under both strategies. -/
theorem c8_explicit_value_overrides_witness :
    (resolveTags .byValue 0 CustomValuesVariants)[1]? = some 0x10 ∧
    (resolveTags .byOrder 0 CustomValuesVariants)[1]? = some 0x10 :=
  ⟨c8_explicit_value_overrides .byValue CustomValuesVariants 0 1 "Bit16" 2
      0x10 .nil rfl,
    c8_explicit_value_overrides .byOrder CustomValuesVariants 0 1 "Bit16" 2
      0x10 .nil rfl⟩

/-- C9: for structures (and any types) containing skipped fields but no TLV
fields, decoding the encoding yields the skip-defaulted value, which agrees
with the original at every position whose role is not `Skipped`. -/
theorem c9_non_skipped_roundtrip (t : Ty) (v : Value)
    (hnt : noTlv t = true) (hok : tyOk t = true) (hwt : wtVal t v = true) :
    strictDeserialize t (strictSerialize t v) = .ok (setSkippedDefault t v) ∧
    agreeExceptSkipped t v (setSkippedDefault t v) = true := by
  constructor
  · have h := decode_encode_val v t [] hnt hok hwt
    rw [List.append_nil] at h
    simp only [strictSerialize, strictDeserialize, h]
  · exact agree_setSkipped_val v t hwt

/-- Witness for C9 at the `Skipping` doctest value: the non-skipped `data`
field survives the round trip. -/
theorem c9_non_skipped_roundtrip_witness :
    strictDeserialize SkippingTy (strictSerialize SkippingTy skippingVal) =
      .ok (setSkippedDefault SkippingTy skippingVal) ∧
    agreeExceptSkipped SkippingTy skippingVal
      (setSkippedDefault SkippingTy skippingVal) = true :=
  c9_non_skipped_roundtrip SkippingTy skippingVal
    (by decide) (by decide) (by decide)

/-- C10: the three derive entry points `derive_strict_dumb`,
`derive_strict_type` and `derive_strict_encode` produce identical output on
every input token stream, since all three run `encode_derive(input, false)`
on the parsed input. -/
theorem c10_derive_entry_points_agree {TS DI E : Type}
    (parse : TS → Except E DI) (encode_derive : DI → Bool → Except E TS)
    (toCompileError : E → TS) (input : TS) :
    derive_strict_dumb parse encode_derive toCompileError input =
      derive_strict_type parse encode_derive toCompileError input ∧
    derive_strict_type parse encode_derive toCompileError input =
      derive_strict_encode parse encode_derive toCompileError input :=
  ⟨rfl, rfl⟩

end StrictEncoding
